import Mathlib

/-!
# A verification model of the JSONL transcript parser
(`packages/api-server/src/parser/jsonl-parser.ts`)

The parser reads a Claude-Code JSONL session file from a byte offset and
extracts structured messages (`text_response`, `tool_summary`,
`permission_request`, `input_request`, `user_message`).

The TypeScript source is shallowly embedded here:

* JSON values are modelled by the inductive `Json`; absent object fields
  (JavaScript `undefined`) are modelled by `Option Json` being `none`,
  while explicit JSON `null` is `Json.null`.  `a ?? b` is `coalesce`,
  JS truthiness is `jsTruthy`, template-literal coercion is `jsToString`.
* JavaScript strings are modelled as Lean `String`s (sequences of unicode
  scalar values); `.length`/`.substring` therefore count scalar values
  rather than UTF-16 code units, which differs from JS only on characters
  outside the basic multilingual plane.
* `JSON.parse` is modelled by the total, fuel-driven `jsonParse`.
  Modelling restriction: numeric literals are modelled as arbitrary
  precision integers; a line containing a fractional or exponent numeric
  literal is treated as unparseable (such a line is skipped either way,
  so the divergence is limited to non-integer numbers nested inside
  otherwise-emitting entries, which no property below depends on).
* The filesystem is a map from paths to file contents (`FS`); a missing
  file (or any I/O failure, which the source collapses into the same
  `catch`) is `none`.  Byte offsets address the UTF-8 encoding of the
  content; `dropUtf8Bytes` models reading from a byte offset (an offset
  landing inside a multi-byte character drops that character, where Node
  would emit replacement characters into the discarded region).
* TypeScript functions that can throw (the tool-summary formatters call
  `.split`/`.substring` on values merely *cast* to `string`) are embedded
  in `Except Unit`; an `Except.error` is a thrown `TypeError`, i.e. a
  rejected promise of `parseJsonlMessages`.
* `new Date().toISOString()` is modelled by a parameter `now`, so the
  wall clock is explicit and determinism questions become theorems.
-/

/-- A JSON value (the result of `JSON.parse`). -/
inductive Json where
  | null : Json
  | bool (b : Bool) : Json
  | num (n : Int) : Json
  | str (s : String) : Json
  | arr (elems : List Json) : Json
  | obj (fields : List (String × Json)) : Json
deriving Repr

namespace Json

mutual

/-- Structural equality test on JSON values. -/
def beq : Json → Json → Bool
  | .null, .null => true
  | .bool a, .bool b => a == b
  | .num a, .num b => a == b
  | .str a, .str b => a == b
  | .arr a, .arr b => beqList a b
  | .obj a, .obj b => beqFields a b
  | _, _ => false

/-- Equality of JSON arrays, element by element. -/
def beqList : List Json → List Json → Bool
  | [], [] => true
  | a :: as₁, b :: bs₁ => beq a b && beqList as₁ bs₁
  | _, _ => false

/-- Equality of JSON object field lists, in order. -/
def beqFields : List (String × Json) → List (String × Json) → Bool
  | [], [] => true
  | (k₁, v₁) :: fs₁, (k₂, v₂) :: fs₂ => k₁ == k₂ && beq v₁ v₂ && beqFields fs₁ fs₂
  | _, _ => false

end

mutual

theorem beq_refl : ∀ j : Json, beq j j = true
  | .null => rfl
  | .bool b => by simp [beq]
  | .num n => by simp [beq]
  | .str s => by simp [beq]
  | .arr xs => by simp [beq, beqList_refl xs]
  | .obj fs => by simp [beq, beqFields_refl fs]

theorem beqList_refl : ∀ xs : List Json, beqList xs xs = true
  | [] => rfl
  | x :: xs => by simp [beqList, beq_refl x, beqList_refl xs]

theorem beqFields_refl : ∀ fs : List (String × Json), beqFields fs fs = true
  | [] => rfl
  | (k, v) :: fs => by simp [beqFields, beq_refl v, beqFields_refl fs]

end

mutual

theorem eq_of_beq : ∀ {a b : Json}, beq a b = true → a = b
  | .null, .null, _ => rfl
  | .bool _, .bool _, h => by simpa [beq] using congrArg Json.bool (by simpa [beq] using h)
  | .num _, .num _, h => by exact congrArg Json.num (by simpa [beq] using h)
  | .str _, .str _, h => by exact congrArg Json.str (by simpa [beq] using h)
  | .arr a, .arr b, h => by exact congrArg Json.arr (eqList_of_beqList (by simpa [beq] using h))
  | .obj a, .obj b, h => by exact congrArg Json.obj (eqFields_of_beqFields (by simpa [beq] using h))

theorem eqList_of_beqList : ∀ {a b : List Json}, beqList a b = true → a = b
  | [], [], _ => rfl
  | x :: xs, y :: ys, h => by
      have h' : beq x y = true ∧ beqList xs ys = true := by simpa [beqList] using h
      exact by rw [eq_of_beq h'.1, eqList_of_beqList h'.2]

theorem eqFields_of_beqFields : ∀ {a b : List (String × Json)}, beqFields a b = true → a = b
  | [], [], _ => rfl
  | (k₁, v₁) :: fs, (k₂, v₂) :: gs, h => by
      have h' : (k₁ == k₂) = true ∧ beq v₁ v₂ = true ∧ beqFields fs gs = true := by
        simpa [beqFields, and_assoc] using h
      have hk : k₁ = k₂ := by simpa using h'.1
      exact by rw [hk, eq_of_beq h'.2.1, eqFields_of_beqFields h'.2.2]

end

instance : DecidableEq Json := fun a b =>
  if h : beq a b = true then .isTrue (eq_of_beq h)
  else .isFalse (fun he => h (he ▸ beq_refl a))

end Json

namespace Json

/-- JavaScript property access `j[key]` on a parsed JSON value: `none` is
`undefined` (non-objects have none of the accessed properties; with duplicate
keys the last occurrence wins, as in `JSON.parse`). -/
def getField (j : Json) (key : String) : Option Json :=
  match j with
  | .obj fields => ((fields.filter (fun p => p.1 == key)).getLast?).map (fun p => p.2)
  | _ => none

/-- JavaScript truthiness of a parsed JSON value. -/
def jsTruthy : Json → Bool
  | .null => false
  | .bool b => b
  | .num n => n != 0
  | .str s => s != ""
  | .arr _ => true
  | .obj _ => true

/-- The nullish-coalescing operator: `v ?? fallback`, where `v : Option Json`
is a property access (`none` = `undefined`). -/
def coalesce (v : Option Json) (fallback : Json) : Json :=
  match v with
  | some x => if x = .null then fallback else x
  | none => fallback

mutual

/-- JavaScript string coercion (template literals): `String(v)`. -/
def jsToString : Json → String
  | .null => "null"
  | .bool true => "true"
  | .bool false => "false"
  | .num n => toString n
  | .str s => s
  | .arr xs => jsToStringList xs
  | .obj _ => "[object Object]"

/-- `Array.prototype.toString` = `join(",")`; `null` elements render empty. -/
def jsToStringList : List Json → String
  | [] => ""
  | x :: xs =>
    let hd := match x with
      | .null => ""
      | v => jsToString v
    match xs with
    | [] => hd
    | _ => hd ++ "," ++ jsToStringList xs

end

end Json


/-! ## JavaScript string primitives

The string operations the source uses (`split` on a one-character
separator, `trim`, `startsWith`, `substring(0, n)`, `join`) are modelled by
structurally recursive functions on the character list, matching the JS
semantics; only the ASCII whitespace characters (plus NBSP and the BOM) of
the JS `trim` set are modelled. -/

/-- Whitespace for the model of `String.prototype.trim`. -/
def jsIsWhitespace (c : Char) : Bool :=
  c = ' ' || c = '\t' || c = '\n' || c = '\r' ||
  c = Char.ofNat 11 || c = Char.ofNat 12 || c = Char.ofNat 0xA0 || c = Char.ofNat 0xFEFF

/-- Model of `s.trim()`. -/
def jsTrim (s : String) : String :=
  String.mk (((s.data.dropWhile jsIsWhitespace).reverse.dropWhile jsIsWhitespace).reverse)

/-- Accumulator loop for `splitOnChar`. -/
def splitCharAux (sep : Char) : List Char → List Char → List String
  | [], acc => [String.mk acc.reverse]
  | c :: cs, acc =>
    if c = sep then String.mk acc.reverse :: splitCharAux sep cs []
    else splitCharAux sep cs (c :: acc)

/-- Model of `s.split(sep)` for a one-character separator (the source only
splits on "/" and "\n"). -/
def splitOnChar (sep : Char) (s : String) : List String :=
  splitCharAux sep s.data []

/-- Character-list version of the startsWith test. -/
def isPrefixList : List Char → List Char → Bool
  | [], _ => true
  | _ :: _, [] => false
  | p :: ps, c :: cs => p = c && isPrefixList ps cs

/-- Model of `s.startsWith(marker)`. -/
def jsStartsWith (s marker : String) : Bool :=
  isPrefixList marker.data s.data

/-- Model of `s.substring(0, n)`. -/
def takeChars (s : String) (n : Nat) : String :=
  String.mk (s.data.take n)

/-- Model of `parts.join(sep)`. -/
def joinWith (sep : String) : List String → String
  | [] => ""
  | [x] => x
  | x :: xs => x ++ sep ++ joinWith sep xs

/-- UTF-8 byte length of a character list. -/
def utf8Len : List Char → Nat
  | [] => 0
  | c :: cs => c.utf8Size + utf8Len cs

/-- UTF-8 byte length of a string (the file size seen by `stat`). -/
def utf8ByteLen (s : String) : Nat := utf8Len s.data

/-! ## A model of `JSON.parse`

Total (fuel-driven) recursive-descent parser for JSON text, used to model the
`JSON.parse(trimmed)` call in the source.  See the modelling restriction on
numeric literals in the header comment. -/

/-- The whitespace characters `JSON.parse` accepts between tokens. -/
def isJsonWs (c : Char) : Bool := c = ' ' || c = '\t' || c = '\n' || c = '\r'

/-- Drop leading JSON whitespace. -/
def skipWs : List Char → List Char
  | [] => []
  | c :: cs => if isJsonWs c then skipWs cs else c :: cs

/-- Resolve a single-character JSON string escape. -/
def escapeChar : Char → Option Char
  | '"' => some '"'
  | '\\' => some '\\'
  | '/' => some '/'
  | 'b' => some (Char.ofNat 8)
  | 'f' => some (Char.ofNat 12)
  | 'n' => some '\n'
  | 'r' => some '\r'
  | 't' => some '\t'
  | _ => none

/-- Value of a hexadecimal digit. -/
def hexVal (c : Char) : Option Nat :=
  if '0' ≤ c ∧ c ≤ '9' then some (c.toNat - '0'.toNat)
  else if 'a' ≤ c ∧ c ≤ 'f' then some (c.toNat - 'a'.toNat + 10)
  else if 'A' ≤ c ∧ c ≤ 'F' then some (c.toNat - 'A'.toNat + 10)
  else none

/-- Parse the body of a JSON string literal (after the opening quote),
accumulating characters in reverse.  Lone UTF-16 surrogates from a
unicode escape are modelled as the replacement character. -/
def parseStrAux (acc : List Char) : List Char → Option (String × List Char)
  | [] => none
  | '"' :: rest => some (String.mk acc.reverse, rest)
  | '\\' :: 'u' :: h₁ :: h₂ :: h₃ :: h₄ :: rest =>
    match hexVal h₁, hexVal h₂, hexVal h₃, hexVal h₄ with
    | some a, some b, some c, some d =>
      let code := ((a * 16 + b) * 16 + c) * 16 + d
      let ch := if 0xD800 ≤ code ∧ code ≤ 0xDFFF then Char.ofNat 0xFFFD else Char.ofNat code
      parseStrAux (ch :: acc) rest
    | _, _, _, _ => none
  | '\\' :: e :: rest =>
    match escapeChar e with
    | some ch => parseStrAux (ch :: acc) rest
    | none => none
  | ['\\'] => none
  | c :: rest => if c.toNat < 0x20 then none else parseStrAux (c :: acc) rest

/-- Split a leading run of decimal digits from the rest. -/
def takeDigits : List Char → List Char × List Char
  | [] => ([], [])
  | c :: cs =>
    if c.isDigit then
      let (ds, rest) := takeDigits cs
      (c :: ds, rest)
    else ([], c :: cs)

/-- Numeric value of a digit run. -/
def digitsVal (ds : List Char) : Nat :=
  ds.foldl (fun a c => a * 10 + (c.toNat - '0'.toNat)) 0

/-- Parse a JSON numeric literal (integers only; fractional or exponent
literals are treated as unparseable — see the header comment). -/
def parseNumber (cs : List Char) : Option (Json × List Char) :=
  let (neg, cs₁) := match cs with
    | '-' :: rest => (true, rest)
    | _ => (false, cs)
  match takeDigits cs₁ with
  | ([], _) => none
  | (d :: ds, rest) =>
    if d = '0' ∧ ds ≠ [] then none
    else match rest with
      | '.' :: _ => none
      | 'e' :: _ => none
      | 'E' :: _ => none
      | _ =>
        let n : Int := Int.ofNat (digitsVal (d :: ds))
        some (.num (if neg then -n else n), rest)

mutual

/-- Parse one JSON value, returning it and the unconsumed input. -/
def parseValue : Nat → List Char → Option (Json × List Char)
  | 0, _ => none
  | fuel + 1, cs =>
    match skipWs cs with
    | [] => none
    | 'n' :: 'u' :: 'l' :: 'l' :: rest => some (.null, rest)
    | 't' :: 'r' :: 'u' :: 'e' :: rest => some (.bool true, rest)
    | 'f' :: 'a' :: 'l' :: 's' :: 'e' :: rest => some (.bool false, rest)
    | '"' :: rest => (parseStrAux [] rest).map (fun p => (.str p.1, p.2))
    | '[' :: rest =>
      match skipWs rest with
      | ']' :: rest' => some (.arr [], rest')
      | cs' => parseElems fuel cs' []
    | '{' :: rest =>
      match skipWs rest with
      | '}' :: rest' => some (.obj [], rest')
      | cs' => parseMembers fuel cs' []
    | cs' => parseNumber cs'

/-- Parse the remaining elements of a JSON array (accumulated in reverse). -/
def parseElems : Nat → List Char → List Json → Option (Json × List Char)
  | 0, _, _ => none
  | fuel + 1, cs, acc =>
    match parseValue fuel cs with
    | none => none
    | some (v, rest) =>
      match skipWs rest with
      | ',' :: rest' => parseElems fuel rest' (v :: acc)
      | ']' :: rest' => some (.arr (v :: acc).reverse, rest')
      | _ => none

/-- Parse the remaining members of a JSON object (accumulated in reverse). -/
def parseMembers : Nat → List Char → List (String × Json) → Option (Json × List Char)
  | 0, _, _ => none
  | fuel + 1, cs, acc =>
    match skipWs cs with
    | '"' :: rest =>
      match parseStrAux [] rest with
      | none => none
      | some (key, rest₂) =>
        match skipWs rest₂ with
        | ':' :: rest₃ =>
          match parseValue fuel rest₃ with
          | none => none
          | some (v, rest₄) =>
            match skipWs rest₄ with
            | ',' :: rest₅ => parseMembers fuel rest₅ ((key, v) :: acc)
            | '}' :: rest₅ => some (.obj ((key, v) :: acc).reverse, rest₅)
            | _ => none
        | _ => none
    | _ => none

end

/-- Model of `JSON.parse(s)`: `none` is a thrown `SyntaxError`. -/
def jsonParse (s : String) : Option Json :=
  match parseValue (2 * s.length + 2) s.data with
  | some (v, rest) => if skipWs rest = [] then some v else none
  | none => none

/-! ## The parser's data model (`@composio/ao-core` types) -/

/-- The five message kinds (`MessageType` in the core package). -/
inductive MessageType where
  | text_response
  | tool_summary
  | permission_request
  | input_request
  | user_message
deriving DecidableEq, Repr

/-- A normalized message (`ParsedMessage`).  `content` and `timestamp` are
JSON values because the source only casts, never converts: non-string
values can flow into both fields. -/
structure ParsedMessage where
  type : MessageType
  content : Json
  metadata : List (String × Json)
  timestamp : Json
deriving DecidableEq, Repr

/-- The result of one parse call (`ParseResult`). -/
structure ParseResult where
  messages : List ParsedMessage
  bytesRead : Nat
deriving DecidableEq, Repr

open Json

/-! ## Tool summary formatters

Each formatter receives the raw `tool_input` value.  The source casts
properties to `string` without checking (`as string`); calling `.split` or
`.substring` on a non-string value throws a `TypeError`, modelled as
`Except.error ()`. -/

/-- Model of `formatReadTool`. -/
def formatReadTool (input : Json) : Except Unit String :=
  match coalesce (input.getField "file_path") (coalesce (input.getField "path") (.str "")) with
  | .str filePath =>
    let filename := ((splitOnChar '/' filePath).getLast?).getD filePath
    .ok ("Read " ++ (if filename = "" then "file" else filename))
  | _ => .error ()

/-- Model of the conditional line count `x ? x.split("\n").length : 0`:
falsy values count 0, truthy non-strings throw at `.split`. -/
def jsLineCount (v : Json) : Except Unit Nat :=
  if jsTruthy v then
    match v with
    | .str s => .ok (splitOnChar '\n' s).length
    | _ => .error ()
  else .ok 0

/-- Model of `formatEditTool`.  Natural subtraction is `Math.max(0, a - b)`. -/
def formatEditTool (input : Json) : Except Unit String :=
  match coalesce (input.getField "file_path") (coalesce (input.getField "path") (.str "")) with
  | .str filePath => do
    let filename := ((splitOnChar '/' filePath).getLast?).getD filePath
    let oldLines ← jsLineCount (coalesce (input.getField "old_string") (.str ""))
    let newLines ← jsLineCount (coalesce (input.getField "new_string") (.str ""))
    let added := newLines - oldLines
    let removed := oldLines - newLines
    .ok ("Edited " ++ (if filename = "" then "file" else filename) ++
      " +" ++ toString added ++ "/-" ++ toString removed ++ " lines")
  | _ => .error ()

/-- Model of `formatWriteTool`. -/
def formatWriteTool (input : Json) : Except Unit String :=
  match coalesce (input.getField "file_path") (coalesce (input.getField "path") (.str "")) with
  | .str filePath =>
    let filename := ((splitOnChar '/' filePath).getLast?).getD filePath
    .ok ("Created " ++ (if filename = "" then "file" else filename))
  | _ => .error ()

/-- Model of the JS comparison `v.length > n`: strings and arrays have a
length; on an object the comparison sees a `length` property if one exists
(only a numeric one is modelled); otherwise `undefined > n` is false. -/
def jsLengthGt (v : Json) (n : Nat) : Bool :=
  match v with
  | .str s => n < s.length
  | .arr xs => n < xs.length
  | .obj fields => match Json.getField (.obj fields) "length" with
    | some (.num m) => (n : Int) < m
    | _ => false
  | _ => false

/-- Model of `formatBashTool`: a command longer than 50 characters is
previewed by `command.substring(0, 50) + "..."`. -/
def formatBashTool (input : Json) : Except Unit String :=
  let command := coalesce (input.getField "command") (.str "")
  if jsLengthGt command 50 then
    match command with
    | .str s => .ok ("Ran " ++ takeChars s 50 ++ "...")
    | _ => .error ()
  else
    .ok ("Ran " ++ (if jsTruthy command then jsToString command else "command"))

/-- Model of `formatGlobTool` (template-literal coercion, never throws). -/
def formatGlobTool (input : Json) : Except Unit String :=
  let pat := coalesce (input.getField "pattern") (.str "")
  .ok ("Glob " ++ (if jsTruthy pat then jsToString pat else "pattern"))

/-- Model of `formatGrepTool`. -/
def formatGrepTool (input : Json) : Except Unit String :=
  let pat := coalesce (input.getField "pattern") (.str "")
  .ok ("Grep " ++ (if jsTruthy pat then jsToString pat else "pattern"))

/-- Model of `formatToolSummary`: dispatch on the tool name (a `switch` with
strict equality, so a non-string name falls to the default branch); the
default branch returns the tool name value itself when no target path is
found, and that value need not be a string. -/
def formatToolSummary (toolName : Json) (input : Json) : Except Unit Json :=
  if toolName = .str "Read" then (formatReadTool input).map Json.str
  else if toolName = .str "Edit" then (formatEditTool input).map Json.str
  else if toolName = .str "Write" then (formatWriteTool input).map Json.str
  else if toolName = .str "Bash" then (formatBashTool input).map Json.str
  else if toolName = .str "Glob" then (formatGlobTool input).map Json.str
  else if toolName = .str "Grep" then (formatGrepTool input).map Json.str
  else
    let target := coalesce (input.getField "file_path")
      (coalesce (input.getField "path") (coalesce (input.getField "pattern") (.str "")))
    if jsTruthy target then
      match target with
      | .str t =>
        let filename := ((splitOnChar '/' t).getLast?).getD t
        if filename = "" then .ok toolName
        else .ok (.str (jsToString toolName ++ " on " ++ filename))
      | _ => .error ()
    else .ok toolName

/-! ## Content extraction -/

/-- Optional-chaining access `entry.message?.content`. -/
def messageContent (entry : Json) : Option Json :=
  (entry.getField "message").bind (fun m => m.getField "content")

/-- Optional-chaining access `entry.message?.role`. -/
def messageRole (entry : Json) : Option Json :=
  (entry.getField "message").bind (fun m => m.getField "role")

/-- Model of `extractAssistantText`: a plain string is returned as is; in a
block array the `text` of every block with type `text` and a string `text`
is collected in order and joined with newlines; no text yields `none`
(JS `null`). -/
def extractAssistantText (content : Option Json) : Option String :=
  match content with
  | some (.str s) => some s
  | some (.arr blocks) =>
    let textParts := blocks.filterMap (fun b =>
      match b.getField "type", b.getField "text" with
      | some (.str "text"), some (.str t) => some t
      | _, _ => none)
    if textParts.length > 0 then some (joinWith "\n" textParts) else none
  | _ => none

/-- Model of `extractToolUses`: blocks with type `tool_use` and a string
`name`, in order; `input` defaults to the empty object. -/
def extractToolUses (content : Option Json) : List (String × Json) :=
  match content with
  | some (.arr blocks) =>
    blocks.filterMap (fun b =>
      match b.getField "type" with
      | some (.str "tool_use") =>
        match b.getField "name" with
        | some (.str name) => some (name, coalesce (b.getField "input") (.obj []))
        | _ => none
      | _ => none)
  | _ => []

/-- Model of `isPermissionRequest`. -/
def isPermissionRequest (entry : Json) : Bool :=
  entry.getField "type" == some (.str "permission_request") ||
  entry.getField "subtype" == some (.str "permission_request")

/-- Model of `isInputRequest`. -/
def isInputRequest (entry : Json) : Bool :=
  entry.getField "subtype" == some (.str "input_request")

/-! ## The main parser -/

/-- Model of `entry.timestamp ?? new Date().toISOString()` with the wall
clock passed in as `now`. -/
def entryTimestamp (now : String) (entry : Json) : Json :=
  coalesce (entry.getField "timestamp") (.str now)

/-- The check `Array.isArray(msgContent) && msgContent.some(b => typeof b
=== "object" && b !== null && b.type === "tool_result")` of the user-message
branch (property access on a non-object is `undefined`, so the `typeof`
guard is absorbed by `getField`). -/
def hasToolResultBlock (entry : Json) : Bool :=
  match messageContent entry with
  | some (.arr blocks) => blocks.any (fun b => b.getField "type" == some (Json.str "tool_result"))
  | _ => false

/-- The corresponding check for `image` blocks of the user-message branch. -/
def hasImageBlock (entry : Json) : Bool :=
  match messageContent entry with
  | some (.arr blocks) => blocks.any (fun b => b.getField "type" == some (Json.str "image"))
  | _ => false

/-- The push loop `for (const tool of toolUses) messages.push({...})` of the
assistant branch: one `tool_summary` per extracted tool use, in order; a
formatter throw aborts the whole call. -/
def formatToolMsgs (timestamp : Json) : List (String × Json) → Except Unit (List ParsedMessage)
  | [] => .ok []
  | tu :: rest =>
    match formatToolSummary (.str tu.1) tu.2 with
    | .error e => .error e
    | .ok content =>
      match formatToolMsgs timestamp rest with
      | .error e => .error e
      | .ok more =>
        .ok (⟨.tool_summary, content,
          [("toolName", .str tu.1), ("toolInput", tu.2)], timestamp⟩ :: more)

/-- One iteration of the main loop of `parseJsonlMessagesAsync` over an
already-parsed entry object: classify the entry in the source's priority
order (permission request, input request, standalone tool use, assistant
message, user message) and emit its messages.  An `Except.error` models a
`TypeError` thrown by a formatter, which escapes the loop and rejects the
whole call. -/
def processEntry (now : String) (entry : Json) : Except Unit (List ParsedMessage) :=
  let timestamp := entryTimestamp now entry
  if isPermissionRequest entry then
    let permContent :=
      coalesce (entry.getField "permission_prompt")
        (match extractAssistantText (messageContent entry) with
          | some t => .str t
          | none => .str "Permission requested")
    .ok [⟨.permission_request, permContent, [], timestamp⟩]
  else if isInputRequest entry then
    let questionContent :=
      match extractAssistantText (messageContent entry) with
      | some t => t
      | none => "Waiting for input"
    .ok [⟨.input_request, .str questionContent, [], timestamp⟩]
  else if entry.getField "type" == some (.str "tool_use") then
    let toolName := coalesce (entry.getField "tool_name") (.str "unknown")
    let toolInput := coalesce (entry.getField "tool_input") (.obj [])
    match formatToolSummary toolName toolInput with
    | .error e => .error e
    | .ok content =>
      .ok [⟨.tool_summary, content, [("toolName", toolName), ("toolInput", toolInput)], timestamp⟩]
  else if entry.getField "type" == some (.str "assistant") &&
      messageRole entry == some (.str "assistant") then
    let msgContent := messageContent entry
    let textMsgs := match extractAssistantText msgContent with
      | some t =>
        if t ≠ "" then [(⟨.text_response, .str t, [], timestamp⟩ : ParsedMessage)]
        else []
      | none => []
    match formatToolMsgs timestamp (extractToolUses msgContent) with
    | .error e => .error e
    | .ok toolMsgs => .ok (toolMsgs ++ textMsgs)
  else if entry.getField "type" == some (.str "user") &&
      messageRole entry == some (.str "user") then
    let isMeta := match entry.getField "isMeta" with
      | some v => jsTruthy v
      | none => false
    if isMeta then .ok []
    else if hasToolResultBlock entry then .ok []
    else
      match extractAssistantText (messageContent entry) with
      | some t =>
        if t = "" then .ok []
        else if jsStartsWith t "[Request interrupted" then .ok []
        else
          .ok [⟨.user_message, .str t,
            if hasImageBlock entry then [("hasImages", .bool true)] else [], timestamp⟩]
      | none => .ok []
  else .ok []

/-- The main loop of `parseJsonlMessagesAsync` over candidate lines: blank
lines are skipped; lines that fail `JSON.parse` or do not parse to a plain
object (arrays, strings, numbers, booleans, null are all rejected) are
skipped; surviving entries are classified by `processEntry`. -/
def parseLines (now : String) : List String → Except Unit (List ParsedMessage)
  | [] => .ok []
  | line :: rest =>
    let trimmed := jsTrim line
    if trimmed = "" then parseLines now rest
    else
      match jsonParse trimmed with
      | some (.obj fields) =>
        match processEntry now (.obj fields) with
        | .error e => .error e
        | .ok msgs =>
          match parseLines now rest with
          | .error e => .error e
          | .ok more => .ok (msgs ++ more)
      | _ => parseLines now rest

/-- The filesystem as seen by one parse call: file contents by path (`none`
models a missing file, or any other I/O failure, which the source's `catch`
collapses into the same outcome). -/
structure FS where
  files : String → Option String

/-- Drop the first `n` bytes of the UTF-8 encoding of a character list; an
offset landing inside a multi-byte character drops that whole character
(Node would decode the partial bytes as replacement characters). -/
def dropUtf8Aux : List Char → Nat → List Char
  | cs, 0 => cs
  | [], _ => []
  | c :: cs, n + 1 => dropUtf8Aux cs (n + 1 - c.utf8Size)

/-- Drop the first `n` bytes of the UTF-8 encoding of a string. -/
def dropUtf8Bytes (s : String) (n : Nat) : String := String.mk (dropUtf8Aux s.data n)

/-- Model of `readJsonlContent`: stat the file, then read from the offset.
The stat size and the read see the same contents because the model
filesystem does not change within a call. -/
def readJsonlContent (fs : FS) (filePath : String) (fromByte : Nat) : Option (String × Nat) :=
  match fs.files filePath with
  | none => none
  | some data =>
    let fileSize := utf8ByteLen data
    if fileSize ≤ fromByte then some ("", fromByte)
    else if fromByte = 0 then some (data, fileSize)
    else some (dropUtf8Bytes data fromByte, fileSize)

/-- Model of `parseJsonlMessagesAsync`.  The source's
`content.indexOf("\n")` / `content.slice(firstNewline + 1)` is expressed on
the line decomposition: the content contains a line break iff
`splitOn "\n"` yields at least two segments, and slicing past the first
line break is dropping the first segment. -/
def parseJsonlMessagesAsync (fs : FS) (now : String) (filePath : String) (fromByte : Nat) :
    Except Unit ParseResult :=
  match readJsonlContent fs filePath fromByte with
  | none => .ok ⟨[], 0⟩
  | some (content, bytesRead) =>
    if content = "" then .ok ⟨[], bytesRead⟩
    else
      let lines := splitOnChar '\n' content
      let safeLines := if fromByte > 0 ∧ lines.length ≥ 2 then lines.drop 1 else lines
      (parseLines now safeLines).map (fun msgs => ⟨msgs, bytesRead⟩)

/-- Model of the exported `parseJsonlMessages` (the awaited promise). -/
def parseJsonlMessages (fs : FS) (now : String) (filePath : String) (fromByte : Nat := 0) :
    Except Unit ParseResult :=
  parseJsonlMessagesAsync fs now filePath fromByte

/-! ## Shared lemmas about the classifier -/

theorem formatToolMsgs_ok_mem (ts : Json) :
    ∀ {tus : List (String × Json)} {out : List ParsedMessage},
      formatToolMsgs ts tus = .ok out →
      ∀ m ∈ out, m.type = .tool_summary ∧ m.timestamp = ts ∧
        ∃ tu ∈ tus, m.metadata = [("toolName", Json.str tu.1), ("toolInput", tu.2)] := by
  intro tus
  induction tus with
  | nil =>
    intro out h m hm
    unfold formatToolMsgs at h
    cases h
    simp at hm
  | cons tu rest ih =>
    intro out h m hm
    unfold formatToolMsgs at h
    split at h
    · cases h
    · split at h
      · cases h
      · cases h
        rcases List.mem_cons.mp hm with hm1 | hm2
        · subst hm1
          exact ⟨rfl, rfl, tu, List.mem_cons_self _ _, rfl⟩
        · rename_i more hfmt hrec
          obtain ⟨h1, h2, tu', htu', h3⟩ := ih hrec m hm2
          exact ⟨h1, h2, tu', List.mem_cons_of_mem _ htu', h3⟩

theorem formatToolMsgs_ok_get (ts : Json) :
    ∀ {tus : List (String × Json)} {out : List ParsedMessage},
      formatToolMsgs ts tus = .ok out →
      out.length = tus.length ∧
      ∀ i (h₁ : i < tus.length) (h₂ : i < out.length),
        (out.get ⟨i, h₂⟩).type = .tool_summary ∧
        (out.get ⟨i, h₂⟩).timestamp = ts ∧
        (out.get ⟨i, h₂⟩).metadata =
          [("toolName", Json.str (tus.get ⟨i, h₁⟩).1), ("toolInput", (tus.get ⟨i, h₁⟩).2)] := by
  intro tus
  induction tus with
  | nil =>
    intro out h
    unfold formatToolMsgs at h
    cases h
    exact ⟨rfl, fun i h₁ _ => absurd h₁ (Nat.not_lt_zero i)⟩
  | cons tu rest ih =>
    intro out h
    unfold formatToolMsgs at h
    split at h
    · cases h
    · split at h
      · cases h
      · cases h
        rename_i more hfmt hrec
        obtain ⟨hlen, hget⟩ := ih hrec
        refine ⟨by simp [hlen], ?_⟩
        intro i h₁ h₂
        cases i with
        | zero => exact ⟨rfl, rfl, rfl⟩
        | succ j =>
          exact hget j (Nat.lt_of_succ_lt_succ h₁) (Nat.lt_of_succ_lt_succ h₂)

set_option maxHeartbeats 2000000 in
theorem processEntry_ok_mem {now : String} {entry : Json} {ms : List ParsedMessage}
    (h : processEntry now entry = .ok ms) :
    ∀ m ∈ ms, m.timestamp = entryTimestamp now entry ∧
      ((m.type = .permission_request ∧ m.metadata = []) ∨
       (m.type = .input_request ∧ m.metadata = []) ∨
       (m.type = .tool_summary ∧ ∃ n i, m.metadata = [("toolName", n), ("toolInput", i)]) ∨
       (m.type = .text_response ∧ m.metadata = [] ∧ ∃ t, t ≠ "" ∧ m.content = .str t) ∨
       (m.type = .user_message ∧ (∃ t, t ≠ "" ∧ m.content = .str t) ∧
        m.metadata = (if hasImageBlock entry then [("hasImages", Json.bool true)] else []))) := by
  intro m hm
  simp only [processEntry] at h
  split_ifs at h with h₁ h₂ h₃ h₄ h₅ h₆ h₇ h₈
  · -- permission request
    rw [Except.ok.injEq] at h
    subst h
    rcases List.mem_singleton.mp hm with rfl
    exact ⟨rfl, Or.inl ⟨rfl, rfl⟩⟩
  · -- input request
    rw [Except.ok.injEq] at h
    subst h
    rcases List.mem_singleton.mp hm with rfl
    exact ⟨rfl, Or.inr (Or.inl ⟨rfl, rfl⟩)⟩
  · -- standalone tool use
    split at h
    · cases h
    · rw [Except.ok.injEq] at h
      subst h
      rcases List.mem_singleton.mp hm with rfl
      exact ⟨rfl, Or.inr (Or.inr (Or.inl ⟨rfl, _, _, rfl⟩))⟩
  · -- assistant message
    split at h
    · cases h
    · rename_i toolMsgs hfmt
      rw [Except.ok.injEq] at h
      subst h
      rcases List.mem_append.mp hm with hml | hmr
      · obtain ⟨ht, hts, n, _, hmeta⟩ := formatToolMsgs_ok_mem _ hfmt m hml
        exact ⟨hts, Or.inr (Or.inr (Or.inl ⟨ht, _, _, hmeta⟩))⟩
      · split at hmr
        · rename_i t heq
          split_ifs at hmr with hne
          · rcases List.mem_singleton.mp hmr with rfl
            exact ⟨rfl, Or.inr (Or.inr (Or.inr (Or.inl ⟨rfl, rfl, t, hne, rfl⟩)))⟩
          · simp at hmr
        · simp at hmr
  · -- user entry, isMeta truthy
    rw [Except.ok.injEq] at h; subst h; simp at hm
  · -- user entry with a tool_result block
    rw [Except.ok.injEq] at h; subst h; simp at hm
  · -- user entry with an image block
    split at h
    · rename_i t _
      split_ifs at h with hEmpty hInt
      · rw [Except.ok.injEq] at h; subst h; simp at hm
      · rw [Except.ok.injEq] at h; subst h; simp at hm
      · rw [Except.ok.injEq] at h
        subst h
        rcases List.mem_singleton.mp hm with rfl
        exact ⟨rfl, Or.inr (Or.inr (Or.inr (Or.inr ⟨rfl, ⟨t, hEmpty, rfl⟩, by simp [h₈]⟩)))⟩
    · rw [Except.ok.injEq] at h; subst h; simp at hm
  · -- user entry without an image block
    split at h
    · rename_i t _
      split_ifs at h with hEmpty hInt
      · rw [Except.ok.injEq] at h; subst h; simp at hm
      · rw [Except.ok.injEq] at h; subst h; simp at hm
      · rw [Except.ok.injEq] at h
        subst h
        rcases List.mem_singleton.mp hm with rfl
        exact ⟨rfl, Or.inr (Or.inr (Or.inr (Or.inr ⟨rfl, ⟨t, hEmpty, rfl⟩, by simp [h₈]⟩)))⟩
    · rw [Except.ok.injEq] at h; subst h; simp at hm
  · -- unmatched entry
    rw [Except.ok.injEq] at h; subst h; simp at hm

theorem parseLines_ok_mem {now : String} :
    ∀ {lines : List String} {msgs : List ParsedMessage},
      parseLines now lines = .ok msgs →
      ∀ m ∈ msgs, ∃ e ms, processEntry now e = .ok ms ∧ m ∈ ms := by
  intro lines
  induction lines with
  | nil =>
    intro msgs h m hm
    unfold parseLines at h
    cases h
    simp at hm
  | cons line rest ih =>
    intro msgs h m hm
    simp only [parseLines] at h
    split_ifs at h with hb
    · exact ih h m hm
    · split at h
      · split at h
        · cases h
        · split at h
          · cases h
          · rename_i x₂ fields hjson x₁ ms hpe x₀ more hrec
            rw [Except.ok.injEq] at h
            subst h
            rcases List.mem_append.mp hm with h1 | h2
            · exact ⟨_, _, hpe, h1⟩
            · exact ih hrec m h2
      · exact ih h m hm

/-! ## The claims -/

/-- The failing input for C1: a `tool_use` entry whose `tool_input.file_path`
is the number 42 rather than a string. -/
def c1File : String :=
  "\x7b\"type\":\"tool_use\",\"tool_name\":\"Read\",\"tool_input\":\x7b\"file_path\":42\x7d\x7d\n"

/-- A filesystem containing only the C1 failing input. -/
def c1fs : FS := ⟨fun p => if p = "session.jsonl" then some c1File else none⟩

/-- C1: the claim states that `parseJsonlMessages` never throws or rejects,
even on entries whose `tool_input` fields have unexpected types such as a
non-string `file_path`.  The code violates this: on a `tool_use` entry with
`file_path: 42`, `formatReadTool` calls `.split` on a number and throws a
`TypeError`, so the promise rejects and no `ParseResult` is produced.  This
theorem evaluates the model at that failing input. -/
theorem C1_throws_on_nonstring_file_path :
    parseJsonlMessages c1fs "2025-01-01T00:00:00.000Z" "session.jsonl" 0 = .error () := by
  rfl

/-- The counterexample input for C2: a permission-request entry whose
`permission_prompt` is the empty string. -/
def c2File : String := "\x7b\"type\":\"permission_request\",\"permission_prompt\":\"\"\x7d\n"

/-- A filesystem containing only the C2 counterexample input. -/
def c2fs : FS := ⟨fun p => if p = "s" then some c2File else none⟩

/-- C2 counterexample: the claim states that no emitted message ever has
empty content.  But `entry.permission_prompt ?? ...` does not treat the
empty string as absent (`??` only skips null and undefined), so a
permission-request entry with `permission_prompt: ""` is emitted with
content `""`. -/
theorem C2_counterexample_empty_permission :
    parseJsonlMessages c2fs "NOW" "s" 0 =
      .ok ⟨[⟨.permission_request, .str "", [], .str "NOW"⟩], 53⟩ := by
  rfl

/-- C2 amended: the non-emptiness invariant holds for `text_response` and
`user_message` messages, whose emission is guarded by a truthiness test on
the extracted text; `permission_request` and `input_request` content can be
the empty string (and `tool_summary` content can even be a non-string when
the entry's `tool_name` is not a string). -/
theorem C2_amended_nonempty {fs : FS} {now path : String} {fromByte : Nat} {r : ParseResult}
    (h : parseJsonlMessages fs now path fromByte = .ok r) :
    ∀ m ∈ r.messages, (m.type = .text_response ∨ m.type = .user_message) →
      ∃ t, m.content = .str t ∧ t ≠ "" := by
  intro m hm hty
  unfold parseJsonlMessages parseJsonlMessagesAsync at h
  split at h
  · rw [Except.ok.injEq] at h
    subst h
    simp at hm
  · split_ifs at h with hc
    · rw [Except.ok.injEq] at h
      subst h
      simp at hm
    · rename_i content bytesRead hread
      simp only [] at h
      rcases hp : parseLines now
          (if fromByte > 0 ∧ (splitOnChar '\n' content).length ≥ 2 then
            (splitOnChar '\n' content).drop 1
          else splitOnChar '\n' content) with e | msgs
      · rw [hp] at h
        cases h
      · rw [hp] at h
        rw [show Except.map (fun msgs => ParseResult.mk msgs bytesRead) (Except.ok msgs) =
            Except.ok ⟨msgs, bytesRead⟩ from rfl, Except.ok.injEq] at h
        subst h
        obtain ⟨e, ms, hpe, hmem⟩ := parseLines_ok_mem hp m hm
        obtain ⟨_, hshape⟩ := processEntry_ok_mem hpe m hmem
        rcases hshape with ⟨ht, _⟩ | ⟨ht, _⟩ | ⟨ht, _⟩ | ⟨ht, _, t, hne, hcont⟩ | ⟨ht, ⟨t, hne, hcont⟩, _⟩
        · rcases hty with h' | h' <;> rw [ht] at h' <;> cases h'
        · rcases hty with h' | h' <;> rw [ht] at h' <;> cases h'
        · rcases hty with h' | h' <;> rw [ht] at h' <;> cases h'
        · exact ⟨t, hcont, hne⟩
        · exact ⟨t, hcont, hne⟩

/-- The witness input for the amended C2. -/
def c2wFile : String :=
  "\x7b\"type\":\"user\",\"message\":\x7b\"role\":\"user\",\"content\":\"Hello\"\x7d,\"timestamp\":\"T\"\x7d\n"

/-- A filesystem containing only the C2 witness input. -/
def c2wfs : FS := ⟨fun p => if p = "s" then some c2wFile else none⟩

/-- Witness for the amended C2 at a concrete one-line session file,
instantiated at its single emitted message. -/
theorem C2_amended_nonempty_witness :
    ∃ t, (ParsedMessage.mk .user_message (.str "Hello") [] (.str "T")).content =
      Json.str t ∧ t ≠ "" :=
  @C2_amended_nonempty c2wfs "NOW" "s" 0
    ⟨[⟨.user_message, .str "Hello", [], .str "T"⟩], 76⟩ (by rfl)
    ⟨.user_message, .str "Hello", [], .str "T"⟩ (by simp) (Or.inr rfl)

/-- The counterexample input for C3: two bytes of line 1, then a tail with no
line break that is a complete JSON entry on its own. -/
def c3File : String := "xx\x7b\"type\":\"permission_request\",\"permission_prompt\":\"hi\"\x7d"

/-- A filesystem containing only the C3 counterexample input. -/
def c3fs : FS := ⟨fun p => if p = "f" then some c3File else none⟩

/-- C3 counterexample: the claim states that for every call with
`fromByte > 0` the first line of the newly read content is discarded and
never parsed.  But the source only discards up to the first line break when
one exists (`fromByte > 0 && firstNewline >= 0`); when the newly read
content contains no line break at all, the whole (potentially truncated)
fragment is parsed as a line.  Reading this file from offset 2 parses the
fragment and emits a message from it, where the claim requires none. -/
theorem C3_counterexample_no_newline :
    parseJsonlMessages c3fs "NOW" "f" 2 =
      .ok ⟨[⟨.permission_request, .str "hi", [], .str "NOW"⟩], 56⟩ := by
  rfl

/-- C3 amended: when the newly read content does contain a line break,
everything up to and including the first one is discarded and never reaches
the line parser (only the remaining segments are parsed); when
`fromByte = 0` nothing is discarded.  (When `fromByte > 0` and the content
has no line break, the fragment is parsed whole — the counterexample.) -/
theorem C3_amended_discard {fs : FS} {now path : String} {fromByte : Nat}
    {content : String} {bytesRead : Nat}
    (hread : readJsonlContent fs path fromByte = some (content, bytesRead))
    (hc : content ≠ "") :
    (fromByte > 0 → (splitOnChar '\n' content).length ≥ 2 →
      parseJsonlMessagesAsync fs now path fromByte =
        (parseLines now ((splitOnChar '\n' content).drop 1)).map
          (fun msgs => ⟨msgs, bytesRead⟩)) ∧
    (fromByte = 0 →
      parseJsonlMessagesAsync fs now path fromByte =
        (parseLines now (splitOnChar '\n' content)).map
          (fun msgs => ⟨msgs, bytesRead⟩)) := by
  constructor
  · intro hpos hnl
    unfold parseJsonlMessagesAsync
    rw [hread]
    simp only []
    rw [if_neg hc, if_pos ⟨hpos, hnl⟩]
  · intro h0
    unfold parseJsonlMessagesAsync
    rw [hread]
    simp only []
    rw [if_neg hc, if_neg (by simp [h0])]

/-- The witness input for the amended C3: the three-line scenario of the
spec, read from the byte length of line 1. -/
def c3wFile : String :=
  "\x7b\"type\":\"user\",\"message\":\x7b\"role\":\"user\",\"content\":\"First\"\x7d,\"timestamp\":\"2025-01-15T10:00:00.000Z\"\x7d\n" ++
  "\x7b\"type\":\"assistant\",\"message\":\x7b\"role\":\"assistant\",\"content\":[\x7b\"type\":\"text\",\"text\":\"Second\"\x7d]\x7d,\"timestamp\":\"2025-01-15T10:00:01.000Z\"\x7d\n" ++
  "\x7b\"type\":\"assistant\",\"message\":\x7b\"role\":\"assistant\",\"content\":[\x7b\"type\":\"text\",\"text\":\"Third\"\x7d]\x7d,\"timestamp\":\"2025-01-15T10:00:02.000Z\"\x7d\n"

/-- A filesystem containing only the C3 witness input. -/
def c3wfs : FS := ⟨fun p => if p = "f" then some c3wFile else none⟩

set_option maxRecDepth 8192 in
/-- Witness for the amended C3: reading the three-line file from the byte
length of line 1 parses exactly the segments after the first line break of
the tail. -/
theorem C3_amended_discard_witness :
    parseJsonlMessagesAsync c3wfs "NOW" "f" 99 =
      (parseLines "NOW" ((splitOnChar '\n' (dropUtf8Bytes c3wFile 99)).drop 1)).map
        (fun msgs => ⟨msgs, 368⟩) :=
  (@C3_amended_discard c3wfs "NOW" "f" 99 (dropUtf8Bytes c3wFile 99) 368
    (by rfl) (by decide)).1 (by decide) (by decide)

theorem map_mk_bytesRead {bytesRead : Nat} {r : ParseResult}
    {res : Except Unit (List ParsedMessage)}
    (h : Except.map (fun msgs => ParseResult.mk msgs bytesRead) res = .ok r) :
    r.bytesRead = bytesRead := by
  cases res with
  | error e => cases h
  | ok msgs =>
    rw [show Except.map (fun msgs => ParseResult.mk msgs bytesRead) (Except.ok msgs) =
        Except.ok ⟨msgs, bytesRead⟩ from rfl, Except.ok.injEq] at h
    subst h
    rfl

theorem parse_ok_bytesRead {fs : FS} {now path : String} {fromByte : Nat}
    {content : String} {bytesRead : Nat} {r : ParseResult}
    (hread : readJsonlContent fs path fromByte = some (content, bytesRead))
    (h : parseJsonlMessages fs now path fromByte = .ok r) :
    r.bytesRead = bytesRead := by
  unfold parseJsonlMessages parseJsonlMessagesAsync at h
  rw [hread] at h
  simp only [] at h
  split_ifs at h with hc
  · rw [Except.ok.injEq] at h
    subst h
    rfl
  all_goals exact map_mk_bytesRead h

/-- C4: `bytesRead` equals the stat-observed file size when the file has new
data past `fromByte`, equals the input `fromByte` when it has none, and a
missing file at `fromByte = 0` yields exactly the empty result. -/
theorem C4_bytesRead_contract (fs : FS) (now path : String) (fromByte : Nat) :
    (∀ data, fs.files path = some data → fromByte < utf8ByteLen data →
      ∀ r, parseJsonlMessages fs now path fromByte = .ok r →
        r.bytesRead = utf8ByteLen data) ∧
    (∀ data, fs.files path = some data → utf8ByteLen data ≤ fromByte →
      parseJsonlMessages fs now path fromByte = .ok ⟨[], fromByte⟩) ∧
    (fs.files path = none → parseJsonlMessages fs now path 0 = .ok ⟨[], 0⟩) := by
  refine ⟨?_, ?_, ?_⟩
  · intro data hdata hlt r hr
    by_cases h0 : fromByte = 0
    · refine @parse_ok_bytesRead fs now path fromByte data (utf8ByteLen data) r ?_ hr
      unfold readJsonlContent
      rw [hdata]
      simp only []
      rw [if_neg (by omega), if_pos h0]
    · refine @parse_ok_bytesRead fs now path fromByte (dropUtf8Bytes data fromByte)
        (utf8ByteLen data) r ?_ hr
      unfold readJsonlContent
      rw [hdata]
      simp only []
      rw [if_neg (by omega), if_neg h0]
  · intro data hdata hle
    unfold parseJsonlMessages parseJsonlMessagesAsync readJsonlContent
    rw [hdata]
    simp only []
    rw [if_pos hle]
    rfl
  · intro hnone
    unfold parseJsonlMessages parseJsonlMessagesAsync readJsonlContent
    rw [hnone]

/-- The witness input for C4. -/
def c4File : String :=
  "\x7b\"type\":\"user\",\"message\":\x7b\"role\":\"user\",\"content\":\"Hi\"\x7d,\"timestamp\":\"T\"\x7d\n"

/-- A filesystem containing only the C4 witness input. -/
def c4fs : FS := ⟨fun p => if p = "s" then some c4File else none⟩

/-- Witness for C4 at a concrete file: full read reports the file size, an
offset past the end reports the offset back, and a missing path yields the
empty result. -/
theorem C4_bytesRead_contract_witness :
    (ParseResult.mk [⟨.user_message, .str "Hi", [], .str "T"⟩] 73).bytesRead = utf8ByteLen c4File ∧
    parseJsonlMessages c4fs "NOW" "s" 999 = .ok ⟨[], 999⟩ ∧
    parseJsonlMessages c4fs "NOW" "missing" 0 = .ok ⟨[], 0⟩ :=
  ⟨(C4_bytesRead_contract c4fs "NOW" "s" 0).1 c4File rfl (by decide) _ (by rfl),
   (C4_bytesRead_contract c4fs "NOW" "s" 999).2.1 c4File rfl (by decide),
   (C4_bytesRead_contract c4fs "NOW" "missing" 0).2.2 (by rfl)⟩

/-- C5: for an entry classified as an assistant message whose content is a
block sequence, the emitted messages are exactly one `tool_summary` per
`tool_use` block, in block order (each one's metadata names its block's tool
and input), followed by at most one `text_response` carrying the joined text
(always last, even when text blocks preceded or interleaved with the tool
blocks); with no text and no tool-use blocks nothing is emitted.  Stated
conditionally on the entry's processing completing without a formatter
throw (`.ok`), and on the entry not matching the higher-priority
permission/input predicates, per the classifier's fixed priority order. -/
theorem C5_assistant_block_order {now : String} {entry : Json} {blocks : List Json}
    {ms : List ParsedMessage}
    (hperm : isPermissionRequest entry = false)
    (hinput : isInputRequest entry = false)
    (htype : entry.getField "type" = some (.str "assistant"))
    (hrole : messageRole entry = some (.str "assistant"))
    (hcontent : messageContent entry = some (.arr blocks))
    (h : processEntry now entry = .ok ms) :
    ms.length = (extractToolUses (some (.arr blocks))).length +
      (match extractAssistantText (some (.arr blocks)) with
        | some t => if t = "" then 0 else 1
        | none => 0) ∧
    (∀ i (h₁ : i < (extractToolUses (some (.arr blocks))).length) (h₂ : i < ms.length),
      (ms.get ⟨i, h₂⟩).type = .tool_summary ∧
      (ms.get ⟨i, h₂⟩).metadata =
        [("toolName", Json.str ((extractToolUses (some (.arr blocks))).get ⟨i, h₁⟩).1),
         ("toolInput", ((extractToolUses (some (.arr blocks))).get ⟨i, h₁⟩).2)]) ∧
    (∀ t, extractAssistantText (some (.arr blocks)) = some t → t ≠ "" →
      ms.getLast? = some ⟨.text_response, .str t, [], entryTimestamp now entry⟩) := by
  have e₁ : (entry.getField "type" == some (Json.str "tool_use")) = false := by
    rw [htype]; rfl
  have e₂ : (entry.getField "type" == some (Json.str "assistant") &&
      messageRole entry == some (Json.str "assistant")) = true := by
    rw [htype, hrole]; rfl
  simp only [processEntry] at h
  rw [if_neg (by simp [hperm]), if_neg (by simp [hinput]), if_neg (by simp [e₁]),
    if_pos (by simp [e₂]), hcontent] at h
  split at h
  · cases h
  · rename_i toolMsgs hfmt
    rw [Except.ok.injEq] at h
    subst h
    obtain ⟨hlen, hget⟩ := formatToolMsgs_ok_get _ hfmt
    refine ⟨?_, ?_, ?_⟩
    · rw [List.length_append, hlen]
      congr 1
      cases hx : extractAssistantText (some (.arr blocks)) with
      | none => rfl
      | some t => by_cases ht : t = "" <;> simp [ht]
    · intro i h₁ h₂
      have hi : i < toolMsgs.length := by rw [hlen]; exact h₁
      rw [List.get_append i hi]
      obtain ⟨ht, _, hmeta⟩ := hget i h₁ hi
      exact ⟨ht, hmeta⟩
    · intro t hx hne
      rw [hx]
      dsimp only
      rw [if_pos hne]
      exact List.getLast?_concat _

/-- The content blocks of the C5 witness entry: a text block followed by a
tool-use block (text first, to exercise the order rewrite). -/
def c5blocks : List Json :=
  [.obj [("type", .str "text"), ("text", .str "Let me check.")],
   .obj [("type", .str "tool_use"), ("name", .str "Read"),
         ("input", .obj [("file_path", .str "src/index.ts")])]]

/-- The C5 witness entry: an assistant message with the blocks above. -/
def c5entry : Json :=
  .obj [("type", .str "assistant"),
        ("message", .obj [("role", .str "assistant"), ("content", .arr c5blocks)]),
        ("timestamp", .str "T")]

/-- The messages the C5 witness entry emits: the tool summary first, then
the text response, although the text block came first. -/
def c5msgs : List ParsedMessage :=
  [⟨.tool_summary, .str "Read index.ts",
    [("toolName", Json.str "Read"),
     ("toolInput", Json.obj [("file_path", Json.str "src/index.ts")])], .str "T"⟩,
   ⟨.text_response, .str "Let me check.", [], .str "T"⟩]

/-- Witness for C5 at the concrete mixed-blocks entry. -/
theorem C5_assistant_block_order_witness :
    c5msgs.length = (extractToolUses (some (.arr c5blocks))).length +
      (match extractAssistantText (some (.arr c5blocks)) with
        | some t => if t = "" then 0 else 1
        | none => 0) ∧
    c5msgs.getLast? = some ⟨.text_response, .str "Let me check.", [],
      entryTimestamp "NOW" c5entry⟩ := by
  have hh := @C5_assistant_block_order "NOW" c5entry c5blocks c5msgs rfl rfl rfl rfl rfl rfl
  exact ⟨hh.1, hh.2.2 "Let me check." rfl (by decide)⟩

set_option maxHeartbeats 2000000 in
/-- C7: a user entry that is marked `isMeta`-truthy, or whose content block
sequence contains a `tool_result` block, or whose extracted text starts with
the interrupt marker, never contributes a `user_message` (entries reaching
the user branch with one of these properties are dropped entirely; entries
matching a higher-priority predicate emit other message types only). -/
theorem C7_user_filter {now : String} {entry : Json} {ms : List ParsedMessage}
    (htype : entry.getField "type" = some (.str "user"))
    (hrole : messageRole entry = some (.str "user"))
    (hdrop :
      (match entry.getField "isMeta" with | some v => jsTruthy v | none => false) = true ∨
      hasToolResultBlock entry = true ∨
      (∃ t, extractAssistantText (messageContent entry) = some t ∧
        jsStartsWith t "[Request interrupted" = true))
    (h : processEntry now entry = .ok ms) :
    ∀ m ∈ ms, m.type ≠ .user_message := by
  intro m hm
  simp only [processEntry] at h
  split_ifs at h with h₁ h₂ h₃ h₄ h₅ h₆ h₇ h₈
  · -- permission request: emits a permission_request only
    rw [Except.ok.injEq] at h; subst h
    rcases List.mem_singleton.mp hm with rfl
    intro hc; cases hc
  · -- input request
    rw [Except.ok.injEq] at h; subst h
    rcases List.mem_singleton.mp hm with rfl
    intro hc; cases hc
  · -- tool_use branch cannot be reached for a user-typed entry
    rw [htype] at h₃; simp at h₃
  · -- assistant branch cannot be reached for a user-typed entry
    rw [htype] at h₄; simp at h₄
  · -- isMeta truthy: dropped
    rw [Except.ok.injEq] at h; subst h; simp at hm
  · -- tool_result block: dropped
    rw [Except.ok.injEq] at h; subst h; simp at hm
  · -- remaining user branch, image-block case
    split at h
    · rename_i t heq
      split_ifs at h with hEmpty hInt
      · rw [Except.ok.injEq] at h; subst h; simp at hm
      · rw [Except.ok.injEq] at h; subst h; simp at hm
      · rcases hdrop with hd | hd | ⟨t', heq', hsw⟩
        · exact absurd hd h₆
        · exact absurd hd h₇
        · rw [heq, Option.some.injEq] at heq'
          subst heq'
          exact absurd hsw (by simpa using hInt)
    · rw [Except.ok.injEq] at h; subst h; simp at hm
  · -- remaining user branch, no image block
    split at h
    · rename_i t heq
      split_ifs at h with hEmpty hInt
      · rw [Except.ok.injEq] at h; subst h; simp at hm
      · rw [Except.ok.injEq] at h; subst h; simp at hm
      · rcases hdrop with hd | hd | ⟨t', heq', hsw⟩
        · exact absurd hd h₆
        · exact absurd hd h₇
        · rw [heq, Option.some.injEq] at heq'
          subst heq'
          exact absurd hsw (by simpa using hInt)
    · rw [Except.ok.injEq] at h; subst h; simp at hm
  · -- unmatched entry
    rw [Except.ok.injEq] at h; subst h; simp at hm

/-- The C7 witness entry: a user entry carrying the interrupt notice of
scenario 5, with an `input_request` subtype so that it emits a (non-user)
message the witness can be instantiated at. -/
def c7entry : Json :=
  .obj [("type", .str "user"), ("subtype", .str "input_request"),
        ("message", .obj [("role", .str "user"),
          ("content", .str "[Request interrupted by user]")]),
        ("isMeta", .bool false)]

/-- Witness for C7: the message the interrupt-marked user entry emits is not
a `user_message`. -/
theorem C7_user_filter_witness :
    (ParsedMessage.mk .input_request (.str "[Request interrupted by user]") []
      (.str "NOW")).type ≠ .user_message :=
  @C7_user_filter "NOW" c7entry
    [⟨.input_request, .str "[Request interrupted by user]", [], .str "NOW"⟩] rfl rfl
    (Or.inr (Or.inr ⟨"[Request interrupted by user]", rfl, by decide⟩))
    (by rfl)
    ⟨.input_request, .str "[Request interrupted by user]", [], .str "NOW"⟩ (by simp)

/-- C8: a non-blank line on which `JSON.parse` fails, or which parses to a
non-object value, is skipped exactly, with no error surfaced: the parse of
any line list containing it equals the parse of the same list without it,
so all other lines' messages are unaffected. -/
theorem C8_bad_line_skipped {now : String} (pre post : List String) (bad : String)
    (hnb : jsTrim bad ≠ "")
    (hbad : jsonParse (jsTrim bad) = none ∨
      ∃ v, jsonParse (jsTrim bad) = some v ∧ ∀ fields, v ≠ .obj fields) :
    parseLines now (pre ++ bad :: post) = parseLines now (pre ++ post) := by
  induction pre with
  | nil =>
    simp only [List.nil_append]
    simp only [parseLines]
    rw [if_neg hnb]
    rcases hbad with hj | ⟨v, hj, hv⟩
    · rw [hj]
    · rw [hj]
      cases v with
      | null => rfl
      | bool b => rfl
      | num n => rfl
      | str s => rfl
      | arr xs => rfl
      | obj fields => exact absurd rfl (hv fields)
  | cons p pre ih =>
    simp only [List.cons_append, parseLines, List.append_eq]
    rw [ih]

/-- A well-formed line before the bad line of the C8 witness. -/
def c8good1 : String :=
  "\x7b\"type\":\"user\",\"message\":\x7b\"role\":\"user\",\"content\":\"Hello\"\x7d,\"timestamp\":\"T\"\x7d"

/-- A well-formed line after the bad line of the C8 witness. -/
def c8good2 : String :=
  "\x7b\"type\":\"assistant\",\"message\":\x7b\"role\":\"assistant\",\"content\":\"Ok\"\x7d,\"timestamp\":\"T\"\x7d"

/-- Witness for C8: a non-object JSON line between two good lines changes
nothing. -/
theorem C8_bad_line_skipped_witness :
    parseLines "NOW" [c8good1, "[1,2,3]", c8good2] = parseLines "NOW" [c8good1, c8good2] :=
  C8_bad_line_skipped [c8good1] [c8good2] "[1,2,3]" (by decide)
    (Or.inr ⟨.arr [.num 1, .num 2, .num 3], by rfl, fun fields h => Json.noConfusion h⟩)

/-- C10: metadata shape is fixed by message type — `permission_request`,
`input_request` and `text_response` always carry empty metadata; every
`tool_summary` carries exactly the keys `toolName` and `toolInput`; a
`user_message` carries `{hasImages: true}` exactly when its entry's content
block sequence contains an `image` block, and empty metadata otherwise. -/
theorem C10_metadata_shape {now : String} {entry : Json} {ms : List ParsedMessage}
    (h : processEntry now entry = .ok ms) :
    ∀ m ∈ ms,
      ((m.type = .permission_request ∨ m.type = .input_request ∨ m.type = .text_response) →
        m.metadata = []) ∧
      (m.type = .tool_summary → ∃ n i, m.metadata = [("toolName", n), ("toolInput", i)]) ∧
      (m.type = .user_message →
        m.metadata = (if hasImageBlock entry then [("hasImages", Json.bool true)] else [])) := by
  intro m hm
  obtain ⟨-, hshape⟩ := processEntry_ok_mem h m hm
  rcases hshape with ⟨ht, hmeta⟩ | ⟨ht, hmeta⟩ | ⟨ht, hm2⟩ | ⟨ht, hmeta, -⟩ | ⟨ht, -, hmeta⟩
  · rw [ht]; simp [hmeta]
  · rw [ht]; simp [hmeta]
  · rw [ht]; simp; exact hm2
  · rw [ht]; simp [hmeta]
  · rw [ht]; simp [hmeta]

/-- The C10 witness entry: a user message with a text and an image block. -/
def c10entry : Json :=
  .obj [("type", .str "user"),
        ("message", .obj [("role", .str "user"),
          ("content", .arr [.obj [("type", .str "text"), ("text", .str "see pic")],
                            .obj [("type", .str "image")]])])]

/-- Witness for C10 at the concrete image-carrying user entry, instantiated
at its single emitted message. -/
theorem C10_metadata_shape_witness :
    (ParsedMessage.mk .user_message (.str "see pic") [("hasImages", Json.bool true)]
      (.str "NOW")).metadata =
      (if hasImageBlock c10entry then [("hasImages", Json.bool true)] else []) :=
  (@C10_metadata_shape "NOW" c10entry
    [⟨.user_message, .str "see pic", [("hasImages", Json.bool true)], .str "NOW"⟩] (by rfl)
    ⟨.user_message, .str "see pic", [("hasImages", Json.bool true)], .str "NOW"⟩
    (by simp)).2.2 rfl

/-- Computable lexicographic comparison of character lists, matching the JS
string `<` for strings of basic-multilingual-plane characters (such as
ISO-8601 timestamps). -/
def lexLtChars : List Char → List Char → Bool
  | [], [] => false
  | [], _ :: _ => true
  | _ :: _, [] => false
  | a :: as₂, b :: bs₂ => if a < b then true else if b < a then false else lexLtChars as₂ bs₂

/-- Strict lexicographic order on strings. -/
def strLt (a b : String) : Bool := lexLtChars a.data b.data

/-- Lexicographic order on strings. -/
def strLe (a b : String) : Bool := !(strLt b a)

theorem lexLtChars_self : ∀ cs : List Char, lexLtChars cs cs = false := by
  intro cs
  induction cs with
  | nil => rfl
  | cons c cs ih => simp [lexLtChars, ih]

theorem strLe_refl (s : String) : strLe s s = true := by
  simp [strLe, strLt, lexLtChars_self]

/-- The counterexample input for C6: two well-formed user entries, both with
explicit timestamps, in decreasing timestamp order. -/
def c6File : String :=
  "\x7b\"type\":\"user\",\"message\":\x7b\"role\":\"user\",\"content\":\"A\"\x7d,\"timestamp\":\"2025-01-02T00:00:00.000Z\"\x7d\n" ++
  "\x7b\"type\":\"user\",\"message\":\x7b\"role\":\"user\",\"content\":\"B\"\x7d,\"timestamp\":\"2025-01-01T00:00:00.000Z\"\x7d\n"

/-- A filesystem containing only the C6 counterexample input. -/
def c6fs : FS := ⟨fun p => if p = "f" then some c6File else none⟩

set_option maxRecDepth 8192 in
/-- C6 counterexample: the parser performs no sorting — it emits messages in
file order carrying the entries' own timestamps, so a file whose entries all
carry explicit timestamps in decreasing order yields messages in decreasing
timestamp order, contradicting the claim. -/
theorem C6_counterexample_out_of_order :
    parseJsonlMessages c6fs "NOW" "f" 0 =
      .ok ⟨[⟨.user_message, .str "A", [], .str "2025-01-02T00:00:00.000Z"⟩,
            ⟨.user_message, .str "B", [], .str "2025-01-01T00:00:00.000Z"⟩], 190⟩ ∧
    strLt "2025-01-01T00:00:00.000Z" "2025-01-02T00:00:00.000Z" = true :=
  ⟨by rfl, by rfl⟩

/-- The timestamps (with wall-clock fallback) of the entries a line list
contributes, in file order; mirrors which lines `parseLines` skips. -/
def entryTimestamps (now : String) : List String → List Json
  | [] => []
  | line :: rest =>
    let trimmed := jsTrim line
    if trimmed = "" then entryTimestamps now rest
    else match jsonParse trimmed with
      | some (.obj fields) => entryTimestamp now (.obj fields) :: entryTimestamps now rest
      | _ => entryTimestamps now rest

/-- Order on message timestamps as ISO-8601 strings. -/
def tsLe (a b : Json) : Prop := ∃ s₁ s₂, a = .str s₁ ∧ b = .str s₂ ∧ strLe s₁ s₂ = true

theorem parseLines_timestamp_mem {now : String} :
    ∀ {lines : List String} {msgs : List ParsedMessage},
      parseLines now lines = .ok msgs →
      ∀ m ∈ msgs, m.timestamp ∈ entryTimestamps now lines := by
  intro lines
  induction lines with
  | nil =>
    intro msgs h m hm
    unfold parseLines at h
    cases h
    simp at hm
  | cons line rest ih =>
    intro msgs h m hm
    simp only [parseLines] at h
    simp only [entryTimestamps]
    by_cases hb : jsTrim line = ""
    · rw [if_pos hb] at h ⊢
      exact ih h m hm
    · rw [if_neg hb] at h ⊢
      cases hj : jsonParse (jsTrim line) with
      | none =>
        rw [hj] at h
        exact ih h m hm
      | some v =>
        rw [hj] at h
        cases v with
        | obj fields =>
          simp only [] at h
          split at h
          · cases h
          · rename_i ms hpe
            split at h
            · cases h
            · rename_i more hrec
              rw [Except.ok.injEq] at h
              subst h
              rcases List.mem_append.mp hm with h1 | h2
              · obtain ⟨hts, -⟩ := processEntry_ok_mem hpe m h1
                rw [hts]
                exact List.mem_cons_self _ _
              · exact List.mem_cons_of_mem _ (ih hrec m h2)
        | null => exact ih h m hm
        | bool b => exact ih h m hm
        | num n => exact ih h m hm
        | str s => exact ih h m hm
        | arr xs => exact ih h m hm


theorem parseLines_sorted {now : String} :
    ∀ {lines : List String} {msgs : List ParsedMessage},
      parseLines now lines = .ok msgs →
      (∀ j ∈ entryTimestamps now lines, ∃ s, j = Json.str s) →
      List.Pairwise tsLe (entryTimestamps now lines) →
      List.Pairwise tsLe (msgs.map ParsedMessage.timestamp) := by
  intro lines
  induction lines with
  | nil =>
    intro msgs h _ _
    unfold parseLines at h
    cases h
    simp
  | cons line rest ih =>
    intro msgs h hstr hsorted
    simp only [parseLines] at h
    simp only [entryTimestamps] at hstr hsorted
    by_cases hb : jsTrim line = ""
    · rw [if_pos hb] at h hstr hsorted
      exact ih h hstr hsorted
    · rw [if_neg hb] at h hstr hsorted
      cases hj : jsonParse (jsTrim line) with
      | none =>
        rw [hj] at h hstr hsorted
        simp only [] at h hstr hsorted
        exact ih h hstr hsorted
      | some v =>
        rw [hj] at h hstr hsorted
        cases v with
        | obj fields =>
          simp only [] at h hstr hsorted
          split at h
          · cases h
          · rename_i ms hpe
            split at h
            · cases h
            · rename_i more hrec
              rw [Except.ok.injEq] at h
              subst h
              rw [List.pairwise_cons] at hsorted
              obtain ⟨hhead, htail⟩ := hsorted
              have hstr' : ∀ j ∈ entryTimestamps now rest, ∃ s, j = Json.str s :=
                fun j hjm => hstr j (List.mem_cons_of_mem _ hjm)
              obtain ⟨s₀, hs₀⟩ := hstr _ (List.mem_cons_self _ _)
              rw [List.map_append, List.pairwise_append]
              refine ⟨?_, ih hrec hstr' htail, ?_⟩
              · rw [List.pairwise_map]
                refine List.pairwise_of_forall_mem_list ?_
                intro m₁ hm₁ m₂ hm₂
                obtain ⟨ht₁, -⟩ := processEntry_ok_mem hpe m₁ hm₁
                obtain ⟨ht₂, -⟩ := processEntry_ok_mem hpe m₂ hm₂
                exact ⟨s₀, s₀, by rw [ht₁, hs₀], by rw [ht₂, hs₀], strLe_refl _⟩
              · intro a ha b hb'
                obtain ⟨m₁, hm₁, rfl⟩ := List.mem_map.mp ha
                obtain ⟨m₂, hm₂, rfl⟩ := List.mem_map.mp hb'
                obtain ⟨ht₁, -⟩ := processEntry_ok_mem hpe m₁ hm₁
                rw [ht₁]
                exact hhead _ (parseLines_timestamp_mem hrec m₂ hm₂)
        | null => exact ih h (by simpa using hstr) (by simpa using hsorted)
        | bool b => exact ih h (by simpa using hstr) (by simpa using hsorted)
        | num n => exact ih h (by simpa using hstr) (by simpa using hsorted)
        | str s => exact ih h (by simpa using hstr) (by simpa using hsorted)
        | arr xs => exact ih h (by simpa using hstr) (by simpa using hsorted)

/-- C6 amended: the parser preserves source order and copies each entry's
timestamp onto its messages, so the output is in non-decreasing timestamp
order exactly when the contributing entries' timestamps are string-valued
and non-decreasing in file order — which the original claim did not require. -/
theorem C6_amended_sorted {fs : FS} {now path : String} {fromByte : Nat}
    {content : String} {bytesRead : Nat} {lines : List String} {r : ParseResult}
    (hread : readJsonlContent fs path fromByte = some (content, bytesRead))
    (hlines : lines =
      (if fromByte > 0 ∧ (splitOnChar '\n' content).length ≥ 2 then
        (splitOnChar '\n' content).drop 1
      else splitOnChar '\n' content))
    (h : parseJsonlMessages fs now path fromByte = .ok r)
    (hstr : ∀ j ∈ entryTimestamps now lines, ∃ s, j = Json.str s)
    (hsorted : List.Pairwise tsLe (entryTimestamps now lines)) :
    List.Pairwise tsLe (r.messages.map ParsedMessage.timestamp) := by
  unfold parseJsonlMessages parseJsonlMessagesAsync at h
  rw [hread] at h
  simp only [] at h
  by_cases hc : content = ""
  · rw [if_pos hc, Except.ok.injEq] at h
    subst h
    simp
  · rw [if_neg hc, ← hlines] at h
    rcases hp : parseLines now lines with e | msgs
    · rw [hp] at h
      cases h
    · rw [hp] at h
      rw [show Except.map (fun msgs => ParseResult.mk msgs bytesRead) (Except.ok msgs) =
          Except.ok ⟨msgs, bytesRead⟩ from rfl, Except.ok.injEq] at h
      subst h
      exact parseLines_sorted hp hstr hsorted

/-- The witness input for the amended C6: the same two entries in
non-decreasing timestamp order. -/
def c6wFile : String :=
  "\x7b\"type\":\"user\",\"message\":\x7b\"role\":\"user\",\"content\":\"A\"\x7d,\"timestamp\":\"2025-01-01T00:00:00.000Z\"\x7d\n" ++
  "\x7b\"type\":\"user\",\"message\":\x7b\"role\":\"user\",\"content\":\"B\"\x7d,\"timestamp\":\"2025-01-02T00:00:00.000Z\"\x7d\n"

/-- A filesystem containing only the C6 witness input. -/
def c6wfs : FS := ⟨fun p => if p = "f" then some c6wFile else none⟩

set_option maxRecDepth 8192 in
/-- Witness for the amended C6 at a concrete in-order two-line file. -/
theorem C6_amended_sorted_witness :
    List.Pairwise tsLe
      ((ParseResult.mk
        [⟨.user_message, .str "A", [], .str "2025-01-01T00:00:00.000Z"⟩,
         ⟨.user_message, .str "B", [], .str "2025-01-02T00:00:00.000Z"⟩] 190).messages.map
        ParsedMessage.timestamp) := by
  have hts : entryTimestamps "NOW" (splitOnChar '\n' c6wFile) =
      [Json.str "2025-01-01T00:00:00.000Z", Json.str "2025-01-02T00:00:00.000Z"] := by rfl
  refine @C6_amended_sorted c6wfs "NOW" "f" 0 c6wFile 190 (splitOnChar '\n' c6wFile)
    ⟨[⟨.user_message, .str "A", [], .str "2025-01-01T00:00:00.000Z"⟩,
      ⟨.user_message, .str "B", [], .str "2025-01-02T00:00:00.000Z"⟩], 190⟩
    (by rfl) (by rfl) (by rfl) ?_ ?_
  · rw [hts]
    intro j hj
    rcases List.mem_cons.mp hj with rfl | hj
    · exact ⟨_, rfl⟩
    · rcases List.mem_cons.mp hj with rfl | hj
      · exact ⟨_, rfl⟩
      · simp at hj
  · rw [hts]
    refine List.Pairwise.cons ?_ (List.Pairwise.cons ?_ List.Pairwise.nil)
    · intro b hb
      rcases List.mem_cons.mp hb with rfl | hb
      · exact ⟨_, _, rfl, rfl, by rfl⟩
      · simp at hb
    · intro b hb
      simp at hb

/-- Agreement of the corresponding messages of two runs: identical apart
from the timestamp, which either coincides or is each run's wall clock. -/
def MsgAgrees (now₁ now₂ : String) (m₁ m₂ : ParsedMessage) : Prop :=
  m₁.type = m₂.type ∧ m₁.content = m₂.content ∧ m₁.metadata = m₂.metadata ∧
  (m₁.timestamp = m₂.timestamp ∨ (m₁.timestamp = .str now₁ ∧ m₂.timestamp = .str now₂))

theorem entryTimestamp_agree (now₁ now₂ : String) (e : Json) :
    entryTimestamp now₁ e = entryTimestamp now₂ e ∨
    (entryTimestamp now₁ e = .str now₁ ∧ entryTimestamp now₂ e = .str now₂) := by
  unfold entryTimestamp coalesce
  cases Json.getField e "timestamp" with
  | none => exact Or.inr ⟨rfl, rfl⟩
  | some v =>
    simp only []
    by_cases hv : v = .null
    · rw [if_pos hv, if_pos hv]
      exact Or.inr ⟨rfl, rfl⟩
    · rw [if_neg hv, if_neg hv]
      exact Or.inl rfl

theorem formatToolMsgs_retime (ts₁ ts₂ : Json) :
    ∀ tus : List (String × Json),
      formatToolMsgs ts₂ tus =
        (formatToolMsgs ts₁ tus).map (List.map (fun m => { m with timestamp := ts₂ })) := by
  intro tus
  induction tus with
  | nil => rfl
  | cons tu rest ih =>
    simp only [formatToolMsgs, ih]
    cases formatToolSummary (.str tu.1) tu.2 with
    | error e => rfl
    | ok content =>
      cases formatToolMsgs ts₁ rest with
      | error e => rfl
      | ok more => rfl

set_option maxHeartbeats 2000000 in
theorem processEntry_retime (now₁ now₂ : String) (entry : Json) :
    processEntry now₂ entry =
      (processEntry now₁ entry).map
        (List.map (fun m => { m with timestamp := entryTimestamp now₂ entry })) := by
  simp only [processEntry]
  split_ifs
  · rfl
  · rfl
  · cases formatToolSummary (coalesce (entry.getField "tool_name") (.str "unknown"))
        (coalesce (entry.getField "tool_input") (.obj [])) with
    | error e => rfl
    | ok content => rfl
  · rw [formatToolMsgs_retime (entryTimestamp now₁ entry) (entryTimestamp now₂ entry)]
    cases formatToolMsgs (entryTimestamp now₁ entry)
        (extractToolUses (messageContent entry)) with
    | error e => rfl
    | ok more =>
      simp only []
      cases extractAssistantText (messageContent entry) with
      | none => simp [Except.map]
      | some t =>
        by_cases ht : t = ""
        · simp [ht, Except.map]
        · simp [ht, Except.map]
  · rfl
  · rfl
  · cases extractAssistantText (messageContent entry) with
    | none => rfl
    | some t =>
      simp only []
      by_cases ht : t = ""
      · rw [if_pos ht, if_pos ht]
        rfl
      · rw [if_neg ht, if_neg ht]
        by_cases hi : jsStartsWith t "[Request interrupted" = true
        · rw [if_pos hi, if_pos hi]
          rfl
        · rw [if_neg hi, if_neg hi]
          rfl
  · cases extractAssistantText (messageContent entry) with
    | none => rfl
    | some t =>
      simp only []
      by_cases ht : t = ""
      · rw [if_pos ht, if_pos ht]
        rfl
      · rw [if_neg ht, if_neg ht]
        by_cases hi : jsStartsWith t "[Request interrupted" = true
        · rw [if_pos hi, if_pos hi]
          rfl
        · rw [if_neg hi, if_neg hi]
          rfl
  · rfl

theorem forall₂_append_of {α β : Type} {R : α → β → Prop} :
    ∀ {l₁ : List α} {l₂ : List β} {u₁ : List α} {u₂ : List β},
      List.Forall₂ R l₁ l₂ → List.Forall₂ R u₁ u₂ → List.Forall₂ R (l₁ ++ u₁) (l₂ ++ u₂) := by
  intro l₁ l₂ u₁ u₂ h₁ h₂
  induction h₁ with
  | nil => simpa using h₂
  | cons hr _ ih => exact List.Forall₂.cons hr ih

theorem parseLines_agree (now₁ now₂ : String) :
    ∀ lines : List String,
      (∀ msgs₁, parseLines now₁ lines = .ok msgs₁ →
        ∃ msgs₂, parseLines now₂ lines = .ok msgs₂ ∧
          List.Forall₂ (MsgAgrees now₁ now₂) msgs₁ msgs₂) ∧
      (∀ e, parseLines now₁ lines = .error e → parseLines now₂ lines = .error e) := by
  intro lines
  induction lines with
  | nil =>
    constructor
    · intro msgs₁ h
      unfold parseLines at h
      cases h
      exact ⟨[], rfl, List.Forall₂.nil⟩
    · intro e h
      unfold parseLines at h
      cases h
  | cons line rest ih =>
    obtain ⟨ihok, iherr⟩ := ih
    have hblock : ∀ fields ms₁, processEntry now₁ (Json.obj fields) = .ok ms₁ →
        List.Forall₂ (MsgAgrees now₁ now₂) ms₁
          (ms₁.map (fun m => { m with timestamp := entryTimestamp now₂ (Json.obj fields) })) := by
      intro fields ms₁ hpe
      rw [List.forall₂_map_right_iff]
      rw [List.forall₂_same]
      intro m hm
      obtain ⟨hts, -⟩ := processEntry_ok_mem hpe m hm
      refine ⟨rfl, rfl, rfl, ?_⟩
      rcases entryTimestamp_agree now₁ now₂ (Json.obj fields) with hagree | ⟨h₁, h₂⟩
      · exact Or.inl (by rw [hts, hagree])
      · exact Or.inr ⟨by rw [hts, h₁], h₂⟩
    constructor
    · intro msgs₁ h
      simp only [parseLines] at h ⊢
      by_cases hb : jsTrim line = ""
      · rw [if_pos hb] at h ⊢
        exact ihok msgs₁ h
      · rw [if_neg hb] at h ⊢
        cases hj : jsonParse (jsTrim line) with
        | none =>
          rw [hj] at h
          exact ihok msgs₁ h
        | some v =>
          rw [hj] at h
          cases v with
          | obj fields =>
            simp only [] at h
            have hpe₂ : processEntry now₂ (Json.obj fields) =
                (processEntry now₁ (Json.obj fields)).map
                  (List.map (fun m => { m with timestamp := entryTimestamp now₂ (Json.obj fields) })) :=
              processEntry_retime now₁ now₂ (Json.obj fields)
            cases hpe : processEntry now₁ (Json.obj fields) with
            | error e =>
              rw [hpe] at h
              simp only [] at h
              cases h
            | ok ms₁ =>
              rw [hpe] at h
              simp only [] at h
              cases hrec : parseLines now₁ rest with
              | error e =>
                rw [hrec] at h
                simp only [] at h
                cases h
              | ok more₁ =>
                rw [hrec] at h
                simp only [] at h
                rw [Except.ok.injEq] at h
                subst h
                obtain ⟨more₂, hrec₂, hf⟩ := ihok more₁ hrec
                refine ⟨ms₁.map (fun m => { m with timestamp := entryTimestamp now₂ (Json.obj fields) }) ++ more₂, ?_, ?_⟩
                · simp only []
                  rw [hpe₂, hpe]
                  simp only [Except.map]
                  rw [hrec₂]
                · exact forall₂_append_of (hblock fields ms₁ hpe) hf
          | null => exact ihok msgs₁ h
          | bool b => exact ihok msgs₁ h
          | num n => exact ihok msgs₁ h
          | str s => exact ihok msgs₁ h
          | arr xs => exact ihok msgs₁ h
    · intro e h
      simp only [parseLines] at h ⊢
      by_cases hb : jsTrim line = ""
      · rw [if_pos hb] at h ⊢
        exact iherr e h
      · rw [if_neg hb] at h ⊢
        cases hj : jsonParse (jsTrim line) with
        | none =>
          rw [hj] at h
          exact iherr e h
        | some v =>
          rw [hj] at h
          cases v with
          | obj fields =>
            simp only [] at h
            have hpe₂ : processEntry now₂ (Json.obj fields) =
                (processEntry now₁ (Json.obj fields)).map
                  (List.map (fun m => { m with timestamp := entryTimestamp now₂ (Json.obj fields) })) :=
              processEntry_retime now₁ now₂ (Json.obj fields)
            cases hpe : processEntry now₁ (Json.obj fields) with
            | error e' =>
              rw [hpe] at h
              simp only [] at h
              cases h
              simp only []
              rw [hpe₂, hpe]
              rfl
            | ok ms₁ =>
              rw [hpe] at h
              simp only [] at h
              cases hrec : parseLines now₁ rest with
              | error e' =>
                rw [hrec] at h
                simp only [] at h
                cases h
                simp only []
                rw [hpe₂, hpe]
                simp only [Except.map]
                rw [iherr _ hrec]
              | ok more₁ =>
                rw [hrec] at h
                simp only [] at h
                cases h
          | null => exact iherr e h
          | bool b => exact iherr e h
          | num n => exact iherr e h
          | str s => exact iherr e h
          | arr xs => exact iherr e h

/-- C9: two runs of the parser over the same file bytes and offset agree on
everything except timestamps — same success/failure, same `bytesRead`, same
message count, and pairwise identical type, content and metadata; a
corresponding pair's timestamps can differ only by being the two runs' wall
clocks, which happens exactly for entries lacking a timestamp, so when every
entry carries one the results are identical. -/
theorem C9_two_runs (fs : FS) (path : String) (fromByte : Nat) (now₁ now₂ : String) :
    (∀ r₁, parseJsonlMessages fs now₁ path fromByte = .ok r₁ →
      ∃ r₂, parseJsonlMessages fs now₂ path fromByte = .ok r₂ ∧
        r₁.bytesRead = r₂.bytesRead ∧
        List.Forall₂ (MsgAgrees now₁ now₂) r₁.messages r₂.messages) ∧
    (∀ e, parseJsonlMessages fs now₁ path fromByte = .error e →
      parseJsonlMessages fs now₂ path fromByte = .error e) := by
  constructor
  · intro r₁ h
    unfold parseJsonlMessages parseJsonlMessagesAsync at h ⊢
    cases hread : readJsonlContent fs path fromByte with
    | none =>
      rw [hread] at h
      simp only [] at h
      rw [Except.ok.injEq] at h
      subst h
      exact ⟨⟨[], 0⟩, rfl, rfl, List.Forall₂.nil⟩
    | some pair =>
      obtain ⟨content, bytesRead⟩ := pair
      rw [hread] at h
      simp only [] at h
      by_cases hc : content = ""
      · rw [if_pos hc, Except.ok.injEq] at h
        subst h
        refine ⟨⟨[], bytesRead⟩, ?_, rfl, List.Forall₂.nil⟩
        simp only []
        rw [if_pos hc]
      · rw [if_neg hc] at h
        cases hp₁ : parseLines now₁
            (if fromByte > 0 ∧ (splitOnChar '\n' content).length ≥ 2 then
              (splitOnChar '\n' content).drop 1
            else splitOnChar '\n' content) with
        | error e =>
          rw [hp₁] at h
          cases h
        | ok msgs₁ =>
          rw [hp₁] at h
          rw [show Except.map (fun msgs => ParseResult.mk msgs bytesRead) (Except.ok msgs₁) =
              Except.ok ⟨msgs₁, bytesRead⟩ from rfl, Except.ok.injEq] at h
          subst h
          obtain ⟨msgs₂, hp₂, hf⟩ := (parseLines_agree now₁ now₂ _).1 msgs₁ hp₁
          refine ⟨⟨msgs₂, bytesRead⟩, ?_, rfl, hf⟩
          simp only []
          rw [if_neg hc, hp₂]
          rfl
  · intro e h
    unfold parseJsonlMessages parseJsonlMessagesAsync at h ⊢
    cases hread : readJsonlContent fs path fromByte with
    | none =>
      rw [hread] at h
      simp only [] at h
      cases h
    | some pair =>
      obtain ⟨content, bytesRead⟩ := pair
      rw [hread] at h
      simp only [] at h
      by_cases hc : content = ""
      · rw [if_pos hc] at h
        cases h
      · rw [if_neg hc] at h
        cases hp₁ : parseLines now₁
            (if fromByte > 0 ∧ (splitOnChar '\n' content).length ≥ 2 then
              (splitOnChar '\n' content).drop 1
            else splitOnChar '\n' content) with
        | error e' =>
          rw [hp₁] at h
          simp only [Except.map] at h
          cases h
          simp only []
          rw [if_neg hc, (parseLines_agree now₁ now₂ _).2 e' hp₁]
          rfl
        | ok msgs₁ =>
          rw [hp₁] at h
          simp only [Except.map] at h
          cases h

/-- The C9 witness input: an assistant entry with no timestamp field, so the
wall-clock fallback is exercised. -/
def c9File : String :=
  "\x7b\"type\":\"assistant\",\"message\":\x7b\"role\":\"assistant\",\"content\":[\x7b\"type\":\"text\",\"text\":\"No timestamp\"\x7d]\x7d\x7d\n"

/-- A filesystem containing only the C9 witness input. -/
def c9fs : FS := ⟨fun p => if p = "s" then some c9File else none⟩

set_option maxRecDepth 8192 in
/-- Witness for C9: two runs with different wall clocks over the
no-timestamp entry agree except on the wall-clock timestamp. -/
theorem C9_two_runs_witness :
    ∃ r₂, parseJsonlMessages c9fs "2025-06-01T00:00:00.000Z" "s" 0 = .ok r₂ ∧
      (ParseResult.mk [⟨.text_response, .str "No timestamp", [],
        .str "2025-01-01T00:00:00.000Z"⟩] 102).bytesRead = r₂.bytesRead ∧
      List.Forall₂ (MsgAgrees "2025-01-01T00:00:00.000Z" "2025-06-01T00:00:00.000Z")
        (ParseResult.mk [⟨.text_response, .str "No timestamp", [],
          .str "2025-01-01T00:00:00.000Z"⟩] 102).messages r₂.messages :=
  (C9_two_runs c9fs "s" 0 "2025-01-01T00:00:00.000Z" "2025-06-01T00:00:00.000Z").1
    ⟨[⟨.text_response, .str "No timestamp", [], .str "2025-01-01T00:00:00.000Z"⟩], 102⟩
    (by rfl)
